import Mathlib

/-!
Shallow embedding of `portal/src/components/BookingsCard.jsx` from the
`saas-mvp-hvac` repository.

The component's pure logic (record normalization, wall-clock to
offset-timestamp conversion, display formatting, list filtering and
sorting, and the state transitions of `loadBookings`, `handleAdd` and the
completed/incomplete checkbox handlers) is translated into executable Lean
definitions.  Host-platform primitives that the code calls but does not
define — `new Date(string)` parsing, `Date.prototype.getTimezoneOffset`,
the `getFullYear`..`getSeconds` family, and
`Intl.DateTimeFormat(...).formatToParts` — are modelled as the fields of a
`JSEnv` record over which the theorems quantify; a concrete `JSEnv` stands
for one concrete browser/time-zone configuration.  Instants are `Int`
milliseconds since the Unix epoch, as in JavaScript; an unparseable date
(JS `NaN` time value) is `Option.none`.
-/

/-- Output of `Intl.DateTimeFormat("en-US", {...}).formatToParts` as consumed
by `formatDateAny` (lines 17-34): the month, day, hour, minute and dayPeriod
parts, each a string. -/
structure DateParts where
  month : String
  day : String
  hour : String
  minute : String
  dayPeriod : String

/-- The host JavaScript environment: date parsing, time-zone offset lookup,
local calendar-field read-out and fixed-zone formatting.  `parse s` models
`new Date(s).getTime()` with `none` for an invalid date (`NaN`); `tzOffset t`
models `getTimezoneOffset()` on a valid date holding instant `t` (minutes
*behind* UTC, e.g. 300 for New York in winter); `instantToWall t` models the
`toWall` read-out `getFullYear()..getSeconds()` of a valid date holding `t`
as a 19-character local wall string; `wallUTC s` is the denotation helper
that reads a wall-clock string as a UTC instant (used only to state what an
offset-qualified timestamp string denotes); `formatParts t` models the
`formatToParts` call of `formatDateAny` for the fixed zone
"America/New_York". -/
structure JSEnv where
  parse : String → Option Int
  tzOffset : Int → Int
  instantToWall : Int → String
  wallUTC : String → Option Int
  formatParts : Int → DateParts

/-- The instant denoted by the offset-qualified timestamp string
`wall ± offset` when the offset is `offMin` minutes behind UTC: the wall
digits read as UTC, shifted by the offset.  (A `-05:00` suffix corresponds
to `offMin = 300`.) -/
def denotes (env : JSEnv) (wall : String) (offMin : Int) : Option Int :=
  (env.wallUTC wall).map (fun u => u + offMin * 60000)

/-- JS `a || b` on two nullable strings: `a` unless it is null/absent or
empty (falsy), else `b`.  The result is never `some ""`provided `b` is not. -/
def jsOr (a b : Option String) : Option String :=
  match a with
  | some s => if s = "" then b else some s
  | none => b

/-- JS `a || b` where `b` is a plain (non-null) string default. -/
def jsOrD (a : Option String) (b : String) : String :=
  match a with
  | some s => if s = "" then b else s
  | none => b

/-- JS `a ?? b`: `a` unless null/undefined; an empty string passes through. -/
def jsNullish (a b : Option String) : Option String :=
  match a with
  | some s => some s
  | none => b

/-- JS truthiness of a nullable string: present and non-empty. -/
def jsTruthy (a : Option String) : Bool :=
  match a with
  | some s => s ≠ ""
  | none => false

/-- Case-insensitive-ready substring test, JS `s.includes(q)`. -/
def strIncludes (s q : String) : Bool :=
  decide (q.data <:+: s.data)

/-- JS `s.toLowerCase()`: character-wise lower-casing. -/
def jsToLowerCase (s : String) : String :=
  String.mk (s.data.map Char.toLower)

/-- JS whitespace as relevant to search terms. -/
def isJsSpace (c : Char) : Bool :=
  c = ' ' || c = '\t' || c = '\n' || c = '\r'

/-- JS `s.trim()`: strip whitespace from both ends. -/
def jsTrim (s : String) : String :=
  String.mk (((s.data.dropWhile isJsSpace).reverse.dropWhile isJsSpace).reverse)

/-- A raw record as returned by the booking API, with every field the
component reads (lines 42-78).  JS is duck-typed: each field is a nullable
string (`none` = absent/null/undefined; numeric ids are modelled by their
decimal strings).  `completed` is the only field read purely for truthiness
of a boolean. -/
structure RawRecord where
  id : Option String := none
  booking_id : Option String := none
  pk : Option String := none
  name : Option String := none
  email : Option String := none
  phone : Option String := none
  note : Option String := none
  notes : Option String := none
  service : Option String := none
  address : Option String := none
  starts_at : Option String := none
  start : Option String := none
  starts_at_iso : Option String := none
  start_iso : Option String := none
  whenField : Option String := none
  created_at : Option String := none
  created : Option String := none
  created_at_iso : Option String := none
  createdAt : Option String := none
  completed : Bool := false
  completed_at : Option String := none
  tenant_id : Option String := none
  tenant : Option String := none
deriving DecidableEq

/-- The canonical post-normalization booking shape (lines 64-78). -/
structure Booking where
  id : String
  name : String
  email : String
  phone : String
  note : String
  starts_at : Option String
  created_at : Option String
  completed : Bool
  tenant_id : Option String
deriving DecidableEq

/-- `[r.service, r.address].filter(Boolean).join(" | ")` (line 61). -/
def serviceAddressJoin (r : RawRecord) : String :=
  String.intercalate (" | ")
    (((([r.service, r.address]).filterMap id).filter (fun s => s ≠ "")))

/-- The `startsAt` candidate chain of `normalizeRow` (lines 43-49):
`r.starts_at || r.start || r.starts_at_iso || r.start_iso || r.when ||
null`.  The trailing `|| null` means the result is `none` or a non-empty
string, never an empty one. -/
def rawStartsAt (r : RawRecord) : Option String :=
  jsOr r.starts_at
    (jsOr r.start (jsOr r.starts_at_iso (jsOr r.start_iso (jsOr r.whenField none))))

/-- The `createdAt` candidate chain of `normalizeRow` (lines 51-56). -/
def rawCreatedAt (r : RawRecord) : Option String :=
  jsOr r.created_at (jsOr r.created (jsOr r.created_at_iso (jsOr r.createdAt none)))

/-- The synthetic fallback key of line 69, the template literal
`${r.name || "row"}-${startsAt || i}`.  `rawStartsAt` is `none` or
non-empty, so `startsAt || i` is the string itself when present, else the
decimal index. -/
def syntheticId (r : RawRecord) (i : Nat) : String :=
  (jsOrD r.name ("row")) ++ "-" ++
    (match rawStartsAt r with
     | some s => s
     | none => Nat.repr i)

/-- `normalizeRow(r, i)` (lines 42-79): map a heterogeneous raw record to
the canonical `Booking`.  The `id` falls back to `syntheticId` when no
id-like field is present (`??` chain, so an explicitly empty string id is
kept). -/
def normalizeRow (r : RawRecord) (i : Nat) : Booking :=
  let note :=
    jsOrD r.note (jsOrD r.notes (jsOrD (some (serviceAddressJoin r)) ""))
  { id := (jsNullish r.id (jsNullish r.booking_id r.pk)).getD (syntheticId r i),
    name := jsOrD r.name "",
    email := jsOrD r.email "",
    phone := jsOrD r.phone "",
    note := note,
    starts_at := rawStartsAt r,
    created_at := rawCreatedAt r,
    completed := r.completed || jsTruthy r.completed_at,
    tenant_id := jsOr r.tenant_id (jsOr r.tenant none) }

/-- `formatDateAny(v)` (lines 10-40) for a string argument `v`.  A falsy
(empty) input yields `""`; an unparseable date short-circuits to
`String(v) = v`; otherwise the `Intl` parts are assembled as
`M-D h:mmam/pm` with the day-period lower-cased.  The JS `try/catch` is
modelled by totality: `env.formatParts` is a total function. -/
def formatDateAny (env : JSEnv) (v : String) : String :=
  if v = "" then ""
  else
    match env.parse v with
    | none => v
    | some t =>
      let p := env.formatParts t
      p.month ++ "-" ++ p.day ++ " " ++ p.hour ++ ":" ++ p.minute ++ p.dayPeriod.toLower

/-- Seconds-padding of a wall-clock string (line 151 and line 216):
`localWall.length === 16 ? localWall + ":00" : localWall`. -/
def padWall (localWall : String) : String :=
  if localWall.length = 16 then localWall ++ (":00") else localWall

/-- The suffix built at lines 155-159 from `offMin = getTimezoneOffset()`:
sign, zero-padded hours, ":", zero-padded minutes.  `padStart(2, "0")` is
`leftpad2`. -/
def leftpad2 (s : String) : String :=
  if s.length < 2 then (String.mk (List.replicate (2 - s.length) '0')) ++ s else s

/-- The `±HH:MM` suffix computed from a finite `getTimezoneOffset` value
(lines 154-159). -/
def offsetSuffix (offMin : Int) : String :=
  let sign := if offMin > 0 then ("-") else ("+")
  let abs := offMin.natAbs
  let hh := leftpad2 (Nat.repr (abs / 60))
  let mm := leftpad2 (Nat.repr (abs % 60))
  sign ++ hh ++ (":") ++ mm

/-- `localWallToZonedIso(localWall)` (lines 149-162).  On a parseable wall
string the local offset at that instant is appended as `±HH:MM`.  On an
invalid date `getTimezoneOffset()` is `NaN`, and the JS arithmetic
propagates it verbatim: `NaN > 0` is false (sign `"+"`),
`String(Math.floor(NaN/60)) = "NaN"` (3 characters, `padStart(2)` is a
no-op) and `String(NaN % 60) = "NaN"`, so the suffix is literally
`"+NaN:NaN"`. -/
def localWallToZonedIso (env : JSEnv) (localWall : String) : String :=
  let wall := padWall localWall
  match env.parse wall with
  | some t => wall ++ offsetSuffix (env.tzOffset t)
  | none => wall ++ ("+NaN:NaN")

/-- Syntactic validity of a `±HH:MM` offset suffix: a sign, two digits, a
colon, two digits. -/
def isValidOffsetSuffix (s : String) : Bool :=
  match s.data with
  | [sg, a, b, c, d, e] =>
    (sg = '+' || sg = '-') && a.isDigit && b.isDigit && c = ':' && d.isDigit && e.isDigit
  | _ => false

/-- The UTC offset (in signed minutes ahead of UTC) denoted by a valid
`±HH:MM` suffix; `none` on anything malformed. -/
def parseOffsetSuffix (s : String) : Option Int :=
  match s.data with
  | [sg, a, b, c, d, e] =>
    if (sg = '+' || sg = '-') && a.isDigit && b.isDigit && c = ':' && d.isDigit && e.isDigit then
      let hh : Nat := (a.toNat - '0'.toNat) * 10 + (b.toNat - '0'.toNat)
      let mm : Nat := (d.toNat - '0'.toNat) * 10 + (e.toNat - '0'.toNat)
      let v : Int := ((hh * 60 + mm : Nat) : Int)
      some (if sg = '-' then -v else v)
    else none
  | _ => none

/-- The controlled add-booking form state (lines 112-118). -/
structure BookingForm where
  name : String := ""
  email : String := ""
  phone : String := ""
  startsAt : String := ""
  note : String := ""
deriving DecidableEq

/-- The JSON body POSTed to the create endpoint (lines 231-238).  `end` is a
Lean keyword, hence `end_`. -/
structure CreateBody where
  start : String
  end_ : String
  name : String
  email : Option String
  phone : Option String
  notes : Option String
deriving DecidableEq

/-- Outcome of `handleAdd` up to the network boundary: either the
early-return validation failure (line 209-212, an alert and no request) or
the submission of a concrete body. -/
inductive AddResult
  | validationError
  | submit (body : CreateBody)
deriving DecidableEq

/-- The `toWall` helper of `handleAdd` (lines 221-223) applied to the JS
date `d`: for a valid date, the local `getFullYear()..getSeconds()`
read-out (modelled by `env.instantToWall`); for an invalid date every
getter returns `NaN`, so the template literal collapses to the literal
string shown. -/
def jsToWall (env : JSEnv) (d : Option Int) : String :=
  match d with
  | some t => env.instantToWall t
  | none => "NaN-NaN-NaNTNaN:NaN:NaN"

/-- `handleAdd` (lines 208-254) up to the POST: validate, pad the wall
string, re-parse it, add 60 minutes (3 600 000 ms), read the end instant
back out as a local wall string, convert both walls with
`localWallToZonedIso`, and build the request body.  JS falsy checks on the
form fields are `= ""` since controlled inputs hold strings. -/
def handleAdd (env : JSEnv) (form : BookingForm) : AddResult :=
  if form.name = "" || form.startsAt = "" then .validationError
  else
    let startWall := padWall form.startsAt
    let startDate := env.parse startWall
    let endDate := startDate.map (fun t => t + 60 * 60 * 1000)
    let startIso := localWallToZonedIso env startWall
    let endIso := localWallToZonedIso env (jsToWall env endDate)
    .submit
      { start := startIso,
        end_ := endIso,
        name := form.name,
        email := if form.email = "" then none else some form.email,
        phone := if form.phone = "" then none else some form.phone,
        notes := if form.note = "" then none else some form.note }

/-- The network requests issued by one `handleAdd` call: none on the
validation early-return, exactly the one POST body otherwise. -/
def handleAddRequests (env : JSEnv) (form : BookingForm) : List CreateBody :=
  match handleAdd env form with
  | .validationError => []
  | .submit body => [body]

/-- The mutually-exclusive completion-filter checkboxes (lines 109-110). -/
structure CompletionFlags where
  showCompletedOnly : Bool
  showIncompleteOnly : Bool
deriving DecidableEq

/-- The `onChange` handler of the "Completed only" checkbox (lines
406-410): `setShowCompletedOnly(checked); if (checked)
setShowIncompleteOnly(false)`. -/
def onCompletedOnlyChange (s : CompletionFlags) (checked : Bool) : CompletionFlags :=
  { showCompletedOnly := checked,
    showIncompleteOnly := if checked then false else s.showIncompleteOnly }

/-- The `onChange` handler of the "Incomplete only" checkbox (lines
421-425). -/
def onIncompleteOnlyChange (s : CompletionFlags) (checked : Bool) : CompletionFlags :=
  { showCompletedOnly := if checked then false else s.showCompletedOnly,
    showIncompleteOnly := checked }

/-- The flag states reachable from the initial `useState(false)` pair via
any sequence of checkbox events. -/
inductive FlagsReachable : CompletionFlags → Prop
  | init : FlagsReachable { showCompletedOnly := false, showIncompleteOnly := false }
  | completedToggle (s : CompletionFlags) (c : Bool) :
      FlagsReachable s → FlagsReachable (onCompletedOnlyChange s c)
  | incompleteToggle (s : CompletionFlags) (c : Bool) :
      FlagsReachable s → FlagsReachable (onIncompleteOnlyChange s c)

/-- One settled outcome of the fetch inside `loadBookings` (lines 166-200):
a rejected fetch / JSON failure, or an HTTP response with its ok-flag and —
when the body is consumed — the list of raw records extracted from the
JSON.  The shape-sniffing of lines 175-188 (array, items/bookings/rows/data
key, or first array-valued property) only locates this list, so the model
takes the located list directly. -/
inductive LoadResp
  | netErr
  | http (ok : Bool) (items : List RawRecord)

/-- The slice of component state touched by `loadBookings`: the rows, the
loading flag, and a counter of `alert` notifications raised so far. -/
structure LoadState where
  rows : List Booking
  loading : Bool
  alerts : Nat
deriving DecidableEq

/-- `items.map((r, i) => normalizeRow(r, i))` (line 190). -/
def normalizeItems (items : List RawRecord) : List Booking :=
  items.enum.map (fun p => normalizeRow p.2 p.1)

/-- The state after one `loadBookings` call (lines 166-200) settles with
response `resp`, starting from state `s`: on a 2xx response the rows are
wholesale-replaced by the normalized items; on a non-ok status or a
fetch/JSON failure the `catch` block raises one alert and sets the rows to
`[]`; the `finally` block clears the loading flag on every path. -/
def loadBookings (s : LoadState) (resp : LoadResp) : LoadState :=
  match resp with
  | .http true items =>
    { rows := normalizeItems items, loading := false, alerts := s.alerts }
  | .http false _ =>
    { rows := [], loading := false, alerts := s.alerts + 1 }
  | .netErr =>
    { rows := [], loading := false, alerts := s.alerts + 1 }

/-- The view-affecting filter/sort state (lines 105-110). -/
structure ViewState where
  search : String := ""
  hidePast : Bool := true
  sortBy : String := "upcoming"
  showCompletedOnly : Bool := false
  showIncompleteOnly : Bool := false
deriving DecidableEq

/-- `filterBySearch(list, term)` (lines 308-318): case-insensitive
substring match of the trimmed term against name, phone, email and note. -/
def filterBySearch (list : List Booking) (term : String) : List Booking :=
  let q := jsTrim (jsToLowerCase term)
  if q = "" then list
  else
    list.filter (fun r =>
      strIncludes (jsToLowerCase r.name) q || strIncludes (jsToLowerCase r.phone) q ||
      strIncludes (jsToLowerCase r.email) q || strIncludes (jsToLowerCase r.note) q)

/-- `new Date(b.starts_at).getTime()` (line 328): a null `starts_at` is
coerced by the `Date` constructor to the number 0, i.e. the epoch — a valid
date; a string goes through parsing, with `none` for `NaN`. -/
def startMs (env : JSEnv) (b : Booking) : Option Int :=
  match b.starts_at with
  | some s => env.parse s
  | none => some 0

/-- `new Date(b.created_at || b.starts_at)` (lines 353-354). -/
def createdMs (env : JSEnv) (b : Booking) : Option Int :=
  match jsOr b.created_at b.starts_at with
  | some s => env.parse s
  | none => some 0

/-- The `filtered` derivation (lines 320-340): search filter, then the
hide-past filter (`!isNaN(t) && t >= now`), then the completed-only /
incomplete-only filter. -/
def filteredList (env : JSEnv) (rows : List Booking) (v : ViewState) (now : Int) :
    List Booking :=
  let base := filterBySearch rows v.search
  let base :=
    if v.hidePast then
      base.filter (fun b =>
        match startMs env b with
        | some t => decide (now ≤ t)
        | none => false)
    else base
  if v.showCompletedOnly then base.filter (fun b => b.completed)
  else if v.showIncompleteOnly then base.filter (fun b => !b.completed)
  else base

/-- The `upcoming` comparator `new Date(a.starts_at) - new Date(b.starts_at)`
(line 347) as a total boolean "not after" relation.  When either time value
is `NaN` the JS comparator returns `NaN` and `Array.prototype.sort`'s order
is implementation-defined (spec §9 open question); the model fixes the
refinement that such pairs are left in encounter order. -/
def leUpcoming (env : JSEnv) (a b : Booking) : Bool :=
  match startMs env a, startMs env b with
  | some x, some y => decide (x ≤ y)
  | _, _ => true

/-- The `created` comparator (lines 352-354), descending by created-or-start
time, with the same `NaN` refinement as `leUpcoming`. -/
def leCreated (env : JSEnv) (a b : Booking) : Bool :=
  match createdMs env a, createdMs env b with
  | some x, some y => decide (y ≤ x)
  | _, _ => true

/-- Insertion step of the sort model. -/
def insertLe (le : Booking → Booking → Bool) (a : Booking) :
    List Booking → List Booking
  | [] => [a]
  | b :: l => if le a b then a :: b :: l else b :: insertLe le a l

/-- `arr.sort(cmp)` on a copy (lines 342-358), modelled as a deterministic
comparison sort.  Which comparison sort is immaterial to the claims proved
here (they use only that sorting permutes the copy). -/
def sortByLe (le : Booking → Booking → Bool) : List Booking → List Booking
  | [] => []
  | a :: l => insertLe le a (sortByLe le l)

/-- The `sorted` derivation (lines 342-358): copy `filtered`, then sort by
the selected comparator, or leave as-is for any other `sortBy` value. -/
def sortedList (env : JSEnv) (v : ViewState) (l : List Booking) : List Booking :=
  if v.sortBy = "upcoming" then sortByLe (leUpcoming env) l
  else if v.sortBy = "created" then sortByLe (leCreated env) l
  else l

/-- The full visible-list derivation rendered by the table (spec
`deriveVisibleList`): `sorted` applied to `filtered` applied to the rows,
at current instant `now` (`Date.now()`, line 321). -/
def deriveVisibleList (env : JSEnv) (rows : List Booking) (v : ViewState) (now : Int) :
    List Booking :=
  sortedList env v (filteredList env rows v now)

/-!  Concrete host environments and sample data used by witnesses and
counterexamples.  `fixedEnv` is a winter-New-York-style fixed-offset host
(five hours behind UTC) that parses one specific wall string. -/

/-- A fixed-offset host: UTC-5 everywhere, knowing the one wall reading
"2024-06-01T10:00:00" (instant 1717236000000 = 2024-06-01T10:00:00-05:00). -/
def fixedEnv : JSEnv :=
  { parse := fun s => if s = "2024-06-01T10:00:00" then some 1717236000000 else none,
    tzOffset := fun _ => 300,
    instantToWall := fun _ => "",
    wallUTC := fun s => if s = "2024-06-01T10:00:00" then some 1717218000000 else none,
    formatParts := fun _ =>
      { month := "6", day := "1", hour := "10", minute := "00", dayPeriod := "am" } }

/-- A normalized sample booking whose start parses under `fixedEnv`. -/
def sampleBooking : Booking :=
  { id := "1", name := "Jane", email := "", phone := "", note := "",
    starts_at := some ("2024-06-01T10:00:00"), created_at := none,
    completed := false, tenant_id := none }

/-- C5: in every view state reachable from the initial `useState(false)`
pair through the two checkbox handlers, `showCompletedOnly` and
`showIncompleteOnly` are never both true, and enabling completed-only and
then incomplete-only leaves `showCompletedOnly` false. -/
theorem completion_flags_mutually_exclusive :
    (∀ s, FlagsReachable s →
      ¬(s.showCompletedOnly = true ∧ s.showIncompleteOnly = true)) ∧
    (∀ s : CompletionFlags,
      (onIncompleteOnlyChange (onCompletedOnlyChange s true) true).showCompletedOnly
        = false) := by
  constructor
  · intro s h
    induction h with
    | init => simp
    | completedToggle s c _ _ => cases c <;> simp [onCompletedOnlyChange]
    | incompleteToggle s c _ _ => cases c <;> simp [onIncompleteOnlyChange]
  · intro s
    rfl

/-- Witness for C5 at the concrete state reached by switching
completed-only on from the initial state. -/
theorem completion_flags_mutually_exclusive_witness :
    ¬((onCompletedOnlyChange
        { showCompletedOnly := false, showIncompleteOnly := false } true).showCompletedOnly
          = true ∧
      (onCompletedOnlyChange
        { showCompletedOnly := false, showIncompleteOnly := false } true).showIncompleteOnly
          = true) :=
  completion_flags_mutually_exclusive.1 _
    (FlagsReachable.completedToggle _ true FlagsReachable.init)

/-- C7: an empty name or an empty start wall-clock string makes `handleAdd`
take the early validation return, issuing no network request. -/
theorem handleAdd_validation_no_network (env : JSEnv) (form : BookingForm)
    (h : form.name = "" ∨ form.startsAt = "") :
    handleAdd env form = AddResult.validationError ∧
    handleAddRequests env form = [] := by
  have hb : (form.name = "" || form.startsAt = "") = true := by
    rcases h with h | h <;> simp [h]
  refine ⟨?_, ?_⟩ <;> simp [handleAddRequests, handleAdd, hb]

/-- Witness for C7: the spec's own example, an empty name with a filled
start time. -/
theorem handleAdd_validation_no_network_witness :
    handleAdd fixedEnv { startsAt := "2024-06-01T10:00" } = AddResult.validationError ∧
    handleAddRequests fixedEnv { startsAt := "2024-06-01T10:00" } = [] :=
  handleAdd_validation_no_network fixedEnv _ (Or.inl rfl)

/-- C8: `formatDateAny` returns an unparseable input string unchanged, and
never returns a blank result for a non-blank input (on a parseable input
the rendered parts always contain the literal month-day dash). -/
theorem formatDateAny_unparseable_identity (env : JSEnv) (v : String) :
    (env.parse v = none → formatDateAny env v = v) ∧
    (v ≠ "" → formatDateAny env v ≠ "") := by
  constructor
  · intro hp
    by_cases hv : v = ""
    · simp [formatDateAny, hv]
    · simp [formatDateAny, hv, hp]
  · intro hv
    cases hp : env.parse v with
    | none => simp [formatDateAny, hv, hp]
    | some t =>
      simp only [formatDateAny, hv, if_neg, hp]
      intro heq
      have hlen := congrArg String.length heq
      simp only [ite_false, String.length_append,
        show ("-" : String).length = 1 from rfl,
        show ("" : String).length = 0 from rfl] at hlen
      omega

/-- Witness for C8: an unparseable non-blank input under `fixedEnv` comes
back verbatim. -/
theorem formatDateAny_unparseable_identity_witness :
    formatDateAny fixedEnv ("not-a-date") = "not-a-date" :=
  (formatDateAny_unparseable_identity fixedEnv ("not-a-date")).1 (by decide)

/-- C10: on an input whose (seconds-padded) wall string does not parse,
`localWallToZonedIso` still returns a string — the padded input followed by
the literal `"+NaN:NaN"` produced by JS `NaN` propagation through
`getTimezoneOffset`, `Math.floor`, `%` and `padStart` — and that suffix is
not a syntactically valid `±HH:MM` offset. -/
theorem localWallToZonedIso_invalid_nan_suffix (env : JSEnv) (w : String)
    (h : env.parse (padWall w) = none) :
    localWallToZonedIso env w = padWall w ++ ("+NaN:NaN") ∧
    isValidOffsetSuffix ("+NaN:NaN") = false := by
  constructor
  · simp [localWallToZonedIso, h]
  · decide

/-- Witness for C10: a garbage input under `fixedEnv`. -/
theorem localWallToZonedIso_invalid_nan_suffix_witness :
    localWallToZonedIso fixedEnv ("garbage") = padWall ("garbage") ++ ("+NaN:NaN") ∧
    isValidOffsetSuffix ("+NaN:NaN") = false :=
  localWallToZonedIso_invalid_nan_suffix fixedEnv ("garbage") (by decide)

/-- C1 counterexample: the claim says a failed `load()` leaves a
previously-populated list unchanged, but the `catch` block executes
`setRows([])`: starting from a one-element list, a network failure empties
it. -/
theorem load_failure_keeps_list_counterexample :
    (loadBookings { rows := [sampleBooking], loading := true, alerts := 0 }
        LoadResp.netErr).rows ≠ [sampleBooking] := by
  decide

/-- C1 amended: a `load()` whose network call fails (non-2xx response or
fetch/JSON error) resets the list to empty, raises exactly one alert, and
clears the loading flag. -/
theorem load_failure_resets_list (s : LoadState) (resp : LoadResp)
    (h : resp = LoadResp.netErr ∨ ∃ items, resp = LoadResp.http false items) :
    loadBookings s resp =
      { rows := [], loading := false, alerts := s.alerts + 1 } := by
  rcases h with h | ⟨items, h⟩ <;> subst h <;> rfl

/-- Witness for C1 (amended) at a concrete populated state and a rejected
fetch. -/
theorem load_failure_resets_list_witness :
    loadBookings { rows := [sampleBooking], loading := true, alerts := 0 }
        LoadResp.netErr =
      { rows := [], loading := false, alerts := 1 } :=
  load_failure_resets_list
    { rows := [sampleBooking], loading := true, alerts := 0 }
    LoadResp.netErr (Or.inl rfl)

/-- Inserting into the sort model only adds the inserted element. -/
theorem mem_insertLe (le : Booking → Booking → Bool) (a b : Booking) :
    ∀ l : List Booking, b ∈ insertLe le a l ↔ b = a ∨ b ∈ l := by
  intro l
  induction l with
  | nil => simp [insertLe]
  | cons c l ih =>
    cases h : le a c with
    | true => simp [insertLe, h]
    | false =>
      simp [insertLe, h, ih]
      tauto

/-- The sort model is a permutation up to membership. -/
theorem mem_sortByLe (le : Booking → Booking → Bool) (b : Booking) :
    ∀ l : List Booking, b ∈ sortByLe le l ↔ b ∈ l := by
  intro l
  induction l with
  | nil => simp [sortByLe]
  | cons c l ih =>
    simp [sortByLe, mem_insertLe, ih]

/-- `sortedList` keeps exactly the members of its input. -/
theorem mem_sortedList (env : JSEnv) (v : ViewState) (l : List Booking) (b : Booking) :
    b ∈ sortedList env v l ↔ b ∈ l := by
  unfold sortedList
  by_cases h1 : v.sortBy = "upcoming"
  · simp [h1, mem_sortByLe]
  · by_cases h2 : v.sortBy = "created" <;> simp [h1, h2, mem_sortByLe]

/-- Every member of `filterBySearch list term` is a member of `list`. -/
theorem mem_of_mem_filterBySearch (list : List Booking) (term : String) (b : Booking)
    (h : b ∈ filterBySearch list term) : b ∈ list := by
  unfold filterBySearch at h
  by_cases hq : jsTrim (jsToLowerCase term) = ""
  · simpa [hq] using h
  · simp only [hq, ite_false] at h
    exact (List.mem_filter.1 h).1

/-- Every member of `filteredList` is a member of the underlying rows. -/
theorem mem_of_mem_filteredList (env : JSEnv) (rows : List Booking) (v : ViewState)
    (now : Int) (b : Booking) (h : b ∈ filteredList env rows v now) : b ∈ rows := by
  unfold filteredList at h
  have step : ∀ (l : List Booking) (p : Booking → Bool), b ∈ l.filter p → b ∈ l :=
    fun l p hm => (List.mem_filter.1 hm).1
  apply mem_of_mem_filterBySearch rows v.search
  by_cases hc : v.showCompletedOnly = true
  · simp only [hc, ite_true] at h
    have h := step _ _ h
    by_cases hp : v.hidePast = true
    · simp only [hp, ite_true] at h
      exact step _ _ h
    · simpa [hp] using h
  · simp only [hc, ite_false] at h
    by_cases hi : v.showIncompleteOnly = true
    · simp only [hi, ite_true] at h
      have h := step _ _ h
      by_cases hp : v.hidePast = true
      · simp only [hp, ite_true] at h
        exact step _ _ h
      · simpa [hp] using h
    · simp only [hi, ite_false] at h
      by_cases hp : v.hidePast = true
      · simp only [hp, ite_true] at h
        exact step _ _ h
      · simpa [hp] using h

/-- C9: the visible-list derivation is pure — repeating it on the identical
rows, view state and instant yields the identical output, and it only ever
rearranges or drops existing list elements (the underlying list and its
bookings are untouched). -/
theorem deriveVisibleList_pure (env : JSEnv) (rows : List Booking) (v : ViewState)
    (now : Int) :
    deriveVisibleList env rows v now = deriveVisibleList env rows v now ∧
    ∀ b, b ∈ deriveVisibleList env rows v now → b ∈ rows := by
  refine ⟨rfl, fun b hb => ?_⟩
  exact mem_of_mem_filteredList env rows v now b
    ((mem_sortedList env v _ b).1 hb)

/-- Witness for C9 on a concrete one-element list with the default view
state. -/
theorem deriveVisibleList_pure_witness :
    sampleBooking ∈ [sampleBooking] :=
  (deriveVisibleList_pure fixedEnv [sampleBooking] {} 0).2 sampleBooking
    (by
      have h : deriveVisibleList fixedEnv [sampleBooking] {} 0 = [sampleBooking] := by
        decide
      rw [h]
      exact List.mem_singleton.2 rfl)

/-- C4: with `hidePast` on, every booking in the visible list has a start
time that parses to a valid timestamp (a null start is coerced by `new
Date(null)` to the epoch) no earlier than the current instant `now`:
nothing strictly in the past and nothing unparseable survives the filter. -/
theorem deriveVisibleList_hidePast (env : JSEnv) (rows : List Booking) (v : ViewState)
    (now : Int) (hv : v.hidePast = true) (b : Booking)
    (hb : b ∈ deriveVisibleList env rows v now) :
    ∃ t, startMs env b = some t ∧ now ≤ t := by
  have h1 : b ∈ filteredList env rows v now :=
    (mem_sortedList env v _ b).1 hb
  unfold filteredList at h1
  simp only [hv, ite_true] at h1
  have hmem : b ∈ (filterBySearch rows v.search).filter
      (fun b => match startMs env b with
        | some t => decide (now ≤ t)
        | none => false) := by
    by_cases hc : v.showCompletedOnly = true
    · simp only [hc, ite_true] at h1
      exact (List.mem_filter.1 h1).1
    · simp only [hc, ite_false] at h1
      by_cases hi : v.showIncompleteOnly = true
      · simp only [hi, ite_true] at h1
        exact (List.mem_filter.1 h1).1
      · simpa [hi] using h1
  have hpred := (List.mem_filter.1 hmem).2
  cases ht : startMs env b with
  | none => simp [ht] at hpred
  | some t =>
    refine ⟨t, rfl, ?_⟩
    simpa [ht] using hpred

/-- Witness for C4: the concrete sample list under `fixedEnv`, default view
state (hide-past on) at instant 0. -/
theorem deriveVisibleList_hidePast_witness :
    ∃ t, startMs fixedEnv sampleBooking = some t ∧ (0 : Int) ≤ t :=
  deriveVisibleList_hidePast fixedEnv [sampleBooking] {} 0 rfl sampleBooking
    (by
      have h : deriveVisibleList fixedEnv [sampleBooking] {} 0 = [sampleBooking] := by
        decide
      rw [h]
      exact List.mem_singleton.2 rfl)

/-- The numeric value of a two-character digit string, `none` otherwise. -/
def twoDigitVal (l : List Char) : Option Nat :=
  match l with
  | [a, b] =>
    if a.isDigit && b.isDigit then
      some ((a.toNat - '0'.toNat) * 10 + (b.toNat - '0'.toNat))
    else none
  | _ => none

/-- `padStart(2, "0")` of the decimal representation of `n < 100` is a
two-digit string denoting `n`. -/
theorem twoDigitVal_pad2 : ∀ n < 100, twoDigitVal (leftpad2 (Nat.repr n)).data = some n := by
  decide

/-- Inversion of `twoDigitVal`. -/
theorem twoDigitVal_inv : ∀ (l : List Char) (n : Nat), twoDigitVal l = some n →
    ∃ a b, l = [a, b] ∧ a.isDigit = true ∧ b.isDigit = true ∧
      (a.toNat - '0'.toNat) * 10 + (b.toNat - '0'.toNat) = n
  | [a, b], n, h => by
    simp only [twoDigitVal] at h
    by_cases hd : (a.isDigit && b.isDigit) = true
    · rw [if_pos hd] at h
      have hd1 : a.isDigit = true ∧ b.isDigit = true := by simpa using hd
      exact ⟨a, b, rfl, hd1.1, hd1.2, Option.some.inj h⟩
    · rw [if_neg hd] at h
      cases h
  | [], n, h => by simp [twoDigitVal] at h
  | [a], n, h => by simp [twoDigitVal] at h
  | a :: b :: c :: l, n, h => by simp [twoDigitVal] at h

/-- For every realistic `getTimezoneOffset` value (magnitude below 24
hours), the computed suffix is a syntactically valid `±HH:MM` string whose
denoted UTC offset is exactly the zone's offset `-offMin` minutes (ahead of
UTC). -/
theorem offsetSuffix_valid_parse (offMin : Int) (h : offMin.natAbs < 1440) :
    isValidOffsetSuffix (offsetSuffix offMin) = true ∧
    parseOffsetSuffix (offsetSuffix offMin) = some (-offMin) := by
  have h60 : offMin.natAbs / 60 < 100 := by omega
  have h60m : offMin.natAbs % 60 < 100 := by omega
  obtain ⟨a, b, hab, ha, hb, hvab⟩ := twoDigitVal_inv _ _ (twoDigitVal_pad2 _ h60)
  obtain ⟨d, e, hde, hd, he, hvde⟩ := twoDigitVal_inv _ _ (twoDigitVal_pad2 _ h60m)
  have hdm : offMin.natAbs % 60 < 60 := by omega
  by_cases hs : offMin > 0
  · have hdata : (offsetSuffix offMin).data = '-' :: a :: b :: ':' :: d :: e :: [] := by
      simp only [offsetSuffix, hs, ite_true, String.data_append, hab, hde,
        show ("-" : String).data = ['-'] from rfl,
        show (":" : String).data = [':'] from rfl]
      rfl
    constructor
    · simp [isValidOffsetSuffix, hdata, ha, hb, hd, he]
    · simp only [parseOffsetSuffix, hdata]
      rw [if_pos (by simp [ha, hb, hd, he])]
      simp only [show ('-' = '-') = True by simp, if_true, hvab, hvde]
      congr 1
      omega
  · have hdata : (offsetSuffix offMin).data = '+' :: a :: b :: ':' :: d :: e :: [] := by
      simp only [offsetSuffix, hs, ite_false, String.data_append, hab, hde,
        show ("+" : String).data = ['+'] from rfl,
        show (":" : String).data = [':'] from rfl]
      rfl
    constructor
    · simp [isValidOffsetSuffix, hdata, ha, hb, hd, he]
    · simp only [parseOffsetSuffix, hdata]
      rw [if_pos (by simp [ha, hb, hd, he])]
      simp only [show ('+' = '-') = False by simp, if_false, hvab, hvde]
      congr 1
      omega

/-- C3: on a parseable 16- or 19-character wall string, `localWallToZonedIso`
returns exactly the calendar digits of the input — with `":00"` seconds
appended in the 16-character case, unchanged in the 19-character case —
followed by a syntactically valid `±HH:MM` suffix denoting the local zone's
UTC offset at that instant (`-offMin` minutes ahead of UTC, as reported by
`getTimezoneOffset`, whose magnitude every real zone keeps below 24 hours). -/
theorem toOffsetTimestamp_digits_preserved (env : JSEnv) (w : String) (t : Int)
    (hlen : w.length = 16 ∨ w.length = 19)
    (hp : env.parse (padWall w) = some t)
    (hoff : (env.tzOffset t).natAbs < 1440) :
    (w.length = 16 →
      localWallToZonedIso env w = w ++ (":00") ++ offsetSuffix (env.tzOffset t)) ∧
    (w.length = 19 →
      localWallToZonedIso env w = w ++ offsetSuffix (env.tzOffset t)) ∧
    isValidOffsetSuffix (offsetSuffix (env.tzOffset t)) = true ∧
    parseOffsetSuffix (offsetSuffix (env.tzOffset t)) = some (-(env.tzOffset t)) := by
  obtain ⟨hvalid, hparse⟩ := offsetSuffix_valid_parse (env.tzOffset t) hoff
  refine ⟨?_, ?_, hvalid, hparse⟩
  · intro h16
    have hp16 : env.parse (w ++ (":00")) = some t := by
      rwa [padWall, if_pos h16] at hp
    simp [localWallToZonedIso, padWall, h16, hp16]
  · intro h19
    have hne : ¬ w.length = 16 := by omega
    have hp19 : env.parse w = some t := by
      rwa [padWall, if_neg hne] at hp
    simp [localWallToZonedIso, padWall, hne, hp19]

/-- Witness for C3: the 16-character wall string "2024-06-01T10:00" under
`fixedEnv` (UTC-5): the result is "2024-06-01T10:00:00-05:00". -/
theorem toOffsetTimestamp_digits_preserved_witness :
    (("2024-06-01T10:00" : String).length = 16 →
      localWallToZonedIso fixedEnv ("2024-06-01T10:00") =
        "2024-06-01T10:00" ++ (":00") ++ offsetSuffix (fixedEnv.tzOffset 1717236000000)) ∧
    (("2024-06-01T10:00" : String).length = 19 →
      localWallToZonedIso fixedEnv ("2024-06-01T10:00") =
        "2024-06-01T10:00" ++ offsetSuffix (fixedEnv.tzOffset 1717236000000)) ∧
    isValidOffsetSuffix (offsetSuffix (fixedEnv.tzOffset 1717236000000)) = true ∧
    parseOffsetSuffix (offsetSuffix (fixedEnv.tzOffset 1717236000000)) =
      some (-(fixedEnv.tzOffset 1717236000000)) :=
  toOffsetTimestamp_digits_preserved fixedEnv ("2024-06-01T10:00") 1717236000000
    (Or.inl (by decide)) (by decide) (by decide)

/-- Decimal digit characters have no dash, are digits, and carry their
value; three facts about `Nat.digitChar` on arguments below 10. -/
theorem digitChar_facts : ∀ m < 10, (Nat.digitChar m).isDigit = true ∧
    (Nat.digitChar m).toNat - '0'.toNat = m ∧ Nat.digitChar m ≠ '-' := by
  decide

/-- Fuel does not matter to `Nat.toDigitsCore` once it exceeds the number. -/
theorem toDigitsCore_fuel_irrelevant : ∀ (f g n : Nat) (l : List Char), n < f → n < g →
    Nat.toDigitsCore 10 f n l = Nat.toDigitsCore 10 g n l := by
  intro f
  induction f with
  | zero => intro g n l hf; omega
  | succ f ih =>
    intro g n l hf hg
    cases g with
    | zero => omega
    | succ g =>
      simp only [Nat.toDigitsCore]
      by_cases h0 : n / 10 = 0
      · simp [h0]
      · simp only [h0, ite_false]
        have hn : 10 ≤ n := by
          by_contra hlt
          exact h0 (Nat.div_eq_of_lt (by omega))
        exact ih g (n / 10) _ (by omega) (by omega)

/-- `toDigitsCore` prepends the digits in front of its accumulator. -/
theorem toDigitsCore_append : ∀ (f n : Nat) (l : List Char),
    Nat.toDigitsCore 10 f n l = Nat.toDigitsCore 10 f n [] ++ l := by
  intro f
  induction f with
  | zero => intro n l; simp [Nat.toDigitsCore]
  | succ f ih =>
    intro n l
    simp only [Nat.toDigitsCore]
    by_cases h0 : n / 10 = 0
    · simp [h0]
    · simp only [h0, ite_false]
      rw [ih (n / 10) (Nat.digitChar (n % 10) :: l), ih (n / 10) [Nat.digitChar (n % 10)]]
      simp

/-- One step of the digit-value fold. -/
def digitStep (a : Nat) (c : Char) : Nat := 10 * a + (c.toNat - '0'.toNat)

/-- The decimal value denoted by a digit string. -/
def digitsVal (l : List Char) : Nat := l.foldl digitStep 0

/-- The fold with an arbitrary accumulator. -/
theorem foldl_digitStep (l : List Char) : ∀ a,
    l.foldl digitStep a = a * 10 ^ l.length + digitsVal l := by
  induction l with
  | nil => intro a; simp [digitsVal]
  | cons c l ih =>
    intro a
    simp only [List.foldl_cons, digitsVal, List.length_cons]
    rw [ih (digitStep a c), ih (digitStep 0 c)]
    simp only [digitStep, Nat.mul_zero, Nat.zero_add]
    ring

/-- The value of a digit string extended by one digit. -/
theorem digitsVal_append_single (l : List Char) (c : Char) :
    digitsVal (l ++ [c]) = 10 * digitsVal l + (c.toNat - '0'.toNat) := by
  simp [digitsVal, List.foldl_append, digitStep]

/-- `Nat.toDigits 10` denotes its argument and consists of digits only. -/
theorem toDigits_spec : ∀ n : Nat, digitsVal (Nat.toDigits 10 n) = n ∧
    ∀ c ∈ Nat.toDigits 10 n, c.isDigit = true := by
  intro n
  induction n using Nat.strong_induction_on with
  | _ n ih =>
    by_cases h0 : n / 10 = 0
    · have hn : n < 10 := by omega
      have hmod : n % 10 = n := Nat.mod_eq_of_lt hn
      constructor
      · simp only [Nat.toDigits, Nat.toDigitsCore, h0, ite_true, digitsVal,
          List.foldl_cons, List.foldl_nil, digitStep]
        rw [hmod]
        have := (digitChar_facts n hn).2.1
        omega
      · intro c hc
        simp only [Nat.toDigits, Nat.toDigitsCore, h0, ite_true,
          List.mem_singleton] at hc
        rw [hc, hmod]
        exact (digitChar_facts n hn).1
    · have hn : 10 ≤ n := by
        by_contra hlt
        exact h0 (Nat.div_eq_of_lt (by omega))
      have hdiv : n / 10 < n := Nat.div_lt_self (by omega) (by omega)
      have heq : Nat.toDigits 10 n =
          Nat.toDigits 10 (n / 10) ++ [Nat.digitChar (n % 10)] := by
        show Nat.toDigitsCore 10 (n + 1) n [] = _
        simp only [Nat.toDigitsCore, h0, ite_false]
        rw [toDigitsCore_append n (n / 10) [Nat.digitChar (n % 10)],
          toDigitsCore_fuel_irrelevant n (n / 10 + 1) (n / 10) [] (by omega) (by omega)]
        rfl
      obtain ⟨ihv, ihd⟩ := ih (n / 10) hdiv
      have hm10 : n % 10 < 10 := Nat.mod_lt _ (by omega)
      constructor
      · rw [heq, digitsVal_append_single, ihv]
        have := (digitChar_facts (n % 10) hm10).2.1
        omega
      · intro c hc
        rw [heq, List.mem_append, List.mem_singleton] at hc
        rcases hc with hc | hc
        · exact ihd c hc
        · rw [hc]
          exact (digitChar_facts (n % 10) hm10).1

/-- The characters of `Nat.repr` are the digits of `Nat.toDigits 10`. -/
theorem repr_data_toDigits (n : Nat) : (Nat.repr n).data = Nat.toDigits 10 n := rfl

/-- `Nat.repr` is injective: the denoted value recovers the number. -/
theorem repr_injective (m n : Nat) (h : Nat.repr m = Nat.repr n) : m = n := by
  have hd := congrArg String.data h
  rw [repr_data_toDigits, repr_data_toDigits] at hd
  have h1 := (toDigits_spec m).1
  have h2 := (toDigits_spec n).1
  rw [hd] at h1
  omega

/-- No dash occurs among the characters of a decimal representation. -/
theorem repr_no_dash (n : Nat) : ∀ c ∈ (Nat.repr n).data, c ≠ '-' := by
  intro c hc hdash
  rw [repr_data_toDigits] at hc
  have hd := (toDigits_spec n).2 c hc
  rw [hdash] at hd
  exact absurd hd (by decide)

/-- Cancelling a dash separator: if the parts after the separator contain
no dash themselves, they are determined by the concatenation. -/
theorem append_sep_cancel : ∀ (a b d1 d2 : List Char),
    (∀ c ∈ d1, c ≠ '-') → (∀ c ∈ d2, c ≠ '-') →
    a ++ '-' :: d1 = b ++ '-' :: d2 → d1 = d2 := by
  intro a
  induction a with
  | nil =>
    intro b d1 d2 h1 h2 heq
    cases b with
    | nil => simpa using heq
    | cons c b =>
      simp only [List.nil_append, List.cons_append, List.cons.injEq] at heq
      exfalso
      have hmem : '-' ∈ b ++ '-' :: d2 := by simp
      rw [← heq.2] at hmem
      exact h1 _ hmem rfl
  | cons c a ih =>
    intro b d1 d2 h1 h2 heq
    cases b with
    | nil =>
      simp only [List.nil_append, List.cons_append, List.cons.injEq] at heq
      exfalso
      have hmem : '-' ∈ a ++ '-' :: d1 := by simp
      rw [heq.2] at hmem
      exact h2 _ hmem rfl
    | cons c2 b =>
      simp only [List.cons_append, List.cons.injEq] at heq
      exact ih b d1 d2 h1 h2 heq.2

/-- The synthetic fallback id always contains the dash separator, so it is
never empty. -/
theorem syntheticId_ne_empty (r : RawRecord) (i : Nat) : syntheticId r i ≠ "" := by
  intro h
  have hd := congrArg String.data h
  simp only [syntheticId, String.data_append,
    show ("-" : String).data = ['-'] from rfl,
    show ("" : String).data = ([] : List Char) from rfl,
    List.append_assoc, List.append_eq_nil, List.cons_ne_nil, false_and,
    and_false] at hd

/-- When no id-like field is supplied, `normalizeRow` uses the synthetic
fallback id. -/
theorem normalizeRow_id_noid (r : RawRecord) (i : Nat)
    (h1 : r.id = none) (h2 : r.booking_id = none) (h3 : r.pk = none) :
    (normalizeRow r i).id = syntheticId r i := by
  simp [normalizeRow, jsNullish, h1, h2, h3]

/-- For records without a start time the synthetic id determines the index:
the digits after the last dash recover it. -/
theorem syntheticId_startless_inj (r1 r2 : RawRecord) (i j : Nat)
    (h1 : rawStartsAt r1 = none) (h2 : rawStartsAt r2 = none)
    (heq : syntheticId r1 i = syntheticId r2 j) : i = j := by
  apply repr_injective
  apply String.ext
  have hd := congrArg String.data heq
  simp only [syntheticId, h1, h2, String.data_append,
    show ("-" : String).data = ['-'] from rfl,
    List.append_assoc, List.singleton_append] at hd
  exact append_sep_cancel _ _ _ _ (repr_no_dash i) (repr_no_dash j) hd

/-- `normalizeItems` preserves length. -/
theorem normalizeItems_length (items : List RawRecord) :
    (normalizeItems items).length = items.length := by
  simp [normalizeItems]

/-- C2 amended: when the source records supply no id-like field, every
normalized booking has a non-empty synthetic id; the ids are pairwise
distinct exactly when the synthetic keys `name + "-" + start-or-index` are
(two id-less records sharing name and start time do collide); and when the
id-less records also carry no start time at all, the decimal index makes
the ids unconditionally pairwise distinct.  (Explicitly supplied ids are
kept verbatim, so an empty or duplicated source id propagates; see the
counterexample.) -/
theorem normalize_ids_amended (items : List RawRecord)
    (hnoid : ∀ r ∈ items, r.id = none ∧ r.booking_id = none ∧ r.pk = none) :
    (∀ b ∈ normalizeItems items, b.id ≠ "") ∧
    (((normalizeItems items).map Booking.id).Pairwise (fun x y => x ≠ y) ↔
      (items.enum.map (fun p => syntheticId p.2 p.1)).Pairwise (fun x y => x ≠ y)) ∧
    ((∀ r ∈ items, rawStartsAt r = none) →
      ((normalizeItems items).map Booking.id).Pairwise (fun x y => x ≠ y)) := by
  have hmap : (normalizeItems items).map Booking.id =
      items.enum.map (fun p => syntheticId p.2 p.1) := by
    unfold normalizeItems
    rw [List.map_map]
    apply List.map_congr_left
    intro p hp
    obtain ⟨hid, hbid, hpk⟩ := hnoid p.2 (List.snd_mem_of_mem_enum hp)
    simp [Function.comp, normalizeRow_id_noid p.2 p.1 hid hbid hpk]
  refine ⟨?_, by rw [hmap], ?_⟩
  · intro b hb
    have hmem : b.id ∈ (normalizeItems items).map Booking.id :=
      List.mem_map.2 ⟨b, hb, rfl⟩
    rw [hmap] at hmem
    obtain ⟨p, _, hpe⟩ := List.mem_map.1 hmem
    rw [← hpe]
    exact syntheticId_ne_empty p.2 p.1
  · intro hstartless
    rw [hmap, List.pairwise_iff_getElem]
    intro i j h1 h2 hij
    have h1e : i < items.enum.length := by simpa using h1
    have h2e : j < items.enum.length := by simpa using h2
    have h1i : i < items.length := by simpa using h1
    have h2i : j < items.length := by simpa using h2
    simp only [List.getElem_map, List.getElem_enum]
    intro heq
    have := syntheticId_startless_inj (items[i]) (items[j]) i j
      (hstartless _ (List.getElem_mem h1i)) (hstartless _ (List.getElem_mem h2i)) heq
    omega

/-- Witness for C2 (amended): two id-less, start-less records with the same
name still get distinct ids "A-0" and "A-1". -/
theorem normalize_ids_amended_witness :
    ((normalizeItems
        [({ name := some ("A") } : RawRecord), { name := some ("A") }]).map
      Booking.id).Pairwise (fun x y => x ≠ y) :=
  (normalize_ids_amended
      [({ name := some ("A") } : RawRecord), { name := some ("A") }]
      (by decide)).2.2 (by decide)

/-- C2 counterexample: the claim as stated fails on the concrete response
list `[dupRaw, dupRaw, {id: ""}]` — the two id-less records share name and
start time, so both synthetic ids are "Jane-2024-06-01T10:00:00" (not
locally unique), and the explicitly empty source id survives the `??`
chain (not non-empty). -/
theorem normalize_ids_counterexample :
    (¬ ∀ b ∈ normalizeItems
        [({ name := some ("Jane"), start := some ("2024-06-01T10:00:00") } : RawRecord),
         { name := some ("Jane"), start := some ("2024-06-01T10:00:00") },
         { id := some "" }], b.id ≠ "") ∧
    ¬ ((normalizeItems
        [({ name := some ("Jane"), start := some ("2024-06-01T10:00:00") } : RawRecord),
         { name := some ("Jane"), start := some ("2024-06-01T10:00:00") },
         { id := some "" }]).map Booking.id).Pairwise (fun x y => x ≠ y) := by
  have hids : (normalizeItems
      [({ name := some ("Jane"), start := some ("2024-06-01T10:00:00") } : RawRecord),
       { name := some ("Jane"), start := some ("2024-06-01T10:00:00") },
       { id := some "" }]).map Booking.id =
      ["Jane-2024-06-01T10:00:00", "Jane-2024-06-01T10:00:00", ""] := by
    decide
  constructor
  · intro h
    have hmem : ("" : String) ∈ (normalizeItems
        [({ name := some ("Jane"), start := some ("2024-06-01T10:00:00") } : RawRecord),
         { name := some ("Jane"), start := some ("2024-06-01T10:00:00") },
         { id := some "" }]).map Booking.id := by
      rw [hids]; simp
    obtain ⟨b, hb, hbid⟩ := List.mem_map.1 hmem
    exact h b hb hbid
  · intro hpw
    rw [hids] at hpw
    exact (List.pairwise_cons.1 hpw).1 _ (by simp) rfl

/-- The instant denoted by a full offset-qualified timestamp string: the
last six characters are read as the `±HH:MM` offset (in minutes ahead of
UTC), the rest as the wall-clock digits, giving `wallUTC - offset`. -/
def isoDenotes (env : JSEnv) (s : String) : Option Int :=
  let n := s.data.length
  let wall := String.mk (s.data.take (n - 6))
  match parseOffsetSuffix (String.mk (s.data.drop (n - 6))) with
  | some off => (env.wallUTC wall).map (fun u => u - off * 60000)
  | none => none

/-- A coherent fixed-offset winter host (UTC-5, no transition anywhere
near): it knows the start wall "2024-01-15T10:00:00" (local instant
1705330800000) and the end wall one hour later. -/
def winterEnv : JSEnv :=
  { parse := fun s =>
      if s = "2024-01-15T10:00:00" then some 1705330800000
      else if s = "2024-01-15T11:00:00" then some 1705334400000
      else none,
    tzOffset := fun _ => 300,
    instantToWall := fun t => if t = 1705334400000 then "2024-01-15T11:00:00" else "",
    wallUTC := fun s =>
      if s = "2024-01-15T10:00:00" then some 1705312800000
      else if s = "2024-01-15T11:00:00" then some 1705316400000
      else none,
    formatParts := fun _ =>
      { month := "1", day := "15", hour := "10", minute := "00", dayPeriod := "am" } }

/-- A host in a zone that falls back from UTC+1 to UTC+0 at UTC instant
1729990800000 (local 02:00 → 01:00 on 2024-10-27).  The wall reading
"2024-10-27T01:30:00" is ambiguous; per the ECMAScript rule the parser
picks the offset before the transition, i.e. the earlier occurrence
1729989000000 (UTC+1).  The second occurrence 1729992600000 (UTC+0) reads
back out as the same wall string. -/
def fallbackEnv : JSEnv :=
  { parse := fun s => if s = "2024-10-27T01:30:00" then some 1729989000000 else none,
    tzOffset := fun t => if t < 1729990800000 then -60 else 0,
    instantToWall := fun t => if t = 1729992600000 then "2024-10-27T01:30:00" else "",
    wallUTC := fun s => if s = "2024-10-27T01:30:00" then some 1729992600000 else none,
    formatParts := fun _ =>
      { month := "10", day := "27", hour := "1", minute := "30", dayPeriod := "am" } }

/-- C6 amended: with a parseable start wall string, `handleAdd` submits the
start offset-timestamp and an end offset-timestamp denoting exactly the
instant 60 minutes (3 600 000 ms) after the start instant, with each offset
suffix computed at its own moment — provided the end instant's local
wall-clock reading is unambiguous, i.e. re-parses to the end instant itself
(hypothesis `hrt`; it fails in the repeated hour of a daylight-saving
fall-back, see the counterexample).  The coherence hypotheses `hc0`/`hc1`
say the zone's offset at each instant is consistent with its wall reading,
and `hlen19` that the `toWall` read-out has its usual 19 characters. -/
theorem handleAdd_end_60_minutes (env : JSEnv) (form : BookingForm) (t0 u0 u1 : Int)
    (hname : ¬ form.name = "")
    (hstart : ¬ form.startsAt = "")
    (hp : env.parse (padWall form.startsAt) = some t0)
    (hu0 : env.wallUTC (padWall form.startsAt) = some u0)
    (hc0 : t0 = u0 + env.tzOffset t0 * 60000)
    (hlen19 : (env.instantToWall (t0 + 3600000)).length = 19)
    (hrt : env.parse (env.instantToWall (t0 + 3600000)) = some (t0 + 3600000))
    (hu1 : env.wallUTC (env.instantToWall (t0 + 3600000)) = some u1)
    (hc1 : t0 + 3600000 = u1 + env.tzOffset (t0 + 3600000) * 60000) :
    handleAdd env form = AddResult.submit
      { start := padWall form.startsAt ++ offsetSuffix (env.tzOffset t0),
        end_ := env.instantToWall (t0 + 3600000) ++
          offsetSuffix (env.tzOffset (t0 + 3600000)),
        name := form.name,
        email := if form.email = "" then none else some form.email,
        phone := if form.phone = "" then none else some form.phone,
        notes := if form.note = "" then none else some form.note } ∧
    denotes env (padWall form.startsAt) (env.tzOffset t0) = some t0 ∧
    denotes env (env.instantToWall (t0 + 3600000))
      (env.tzOffset (t0 + 3600000)) = some (t0 + 3600000) := by
  have hpad : padWall (env.instantToWall (t0 + 3600000)) =
      env.instantToWall (t0 + 3600000) := by
    rw [padWall, if_neg (by omega)]
  have hb : (form.name = "" || form.startsAt = "") = false := by
    simp [hname, hstart]
  have hpad2 : padWall (padWall form.startsAt) = padWall form.startsAt := by
    unfold padWall
    by_cases h : form.startsAt.length = 16
    · simp [h, String.length_append, show (":00" : String).length = 3 from rfl]
    · simp [h]
  have hstartIso : localWallToZonedIso env (padWall form.startsAt) =
      padWall form.startsAt ++ offsetSuffix (env.tzOffset t0) := by
    rw [localWallToZonedIso, hpad2, hp]
  have hendIso : localWallToZonedIso env (env.instantToWall (t0 + 3600000)) =
      env.instantToWall (t0 + 3600000) ++
        offsetSuffix (env.tzOffset (t0 + 3600000)) := by
    rw [localWallToZonedIso, hpad, hrt]
  refine ⟨?_, ?_, ?_⟩
  · simp only [handleAdd, hb, Bool.false_eq_true, if_false, hp, jsToWall,
      show Option.map (fun t => t + 60 * 60 * 1000) (some t0) =
        some (t0 + 3600000) from rfl]
    rw [hstartIso, hendIso]
  · rw [denotes, hu0]
    exact congrArg some hc0.symm
  · rw [denotes, hu1]
    exact congrArg some hc1.symm

/-- Witness for C6 (amended) under `winterEnv`: the submitted body carries
"2024-01-15T10:00:00-05:00" and "2024-01-15T11:00:00-05:00", denoting
instants exactly 3 600 000 ms apart. -/
theorem handleAdd_end_60_minutes_witness :
    handleAdd winterEnv { name := "Jane", startsAt := "2024-01-15T10:00" } =
      AddResult.submit
        { start := padWall ("2024-01-15T10:00") ++ offsetSuffix (winterEnv.tzOffset 1705330800000),
          end_ := winterEnv.instantToWall (1705330800000 + 3600000) ++
            offsetSuffix (winterEnv.tzOffset (1705330800000 + 3600000)),
          name := "Jane", email := none, phone := none, notes := none } ∧
    denotes winterEnv (padWall ("2024-01-15T10:00"))
      (winterEnv.tzOffset 1705330800000) = some 1705330800000 ∧
    denotes winterEnv (winterEnv.instantToWall (1705330800000 + 3600000))
      (winterEnv.tzOffset (1705330800000 + 3600000)) =
        some (1705330800000 + 3600000) :=
  handleAdd_end_60_minutes winterEnv
    { name := "Jane", startsAt := "2024-01-15T10:00" }
    1705330800000 1705312800000 1705316400000
    (by decide) (by decide) (by decide) (by decide) (by decide)
    (by decide) (by decide) (by decide) (by decide)

/-- C6 counterexample: in `fallbackEnv`, start 01:30 in the repeated hour
(first occurrence, UTC+1).  The end instant is the second occurrence of the
same wall reading, so `toWall` emits the identical string, re-parsing picks
the first occurrence again, and the submitted end timestamp is literally
the start timestamp: the denoted difference is 0 ms, not 3 600 000. -/
theorem handleAdd_end_60_minutes_counterexample :
    handleAdd fallbackEnv { name := "Jane", startsAt := "2024-10-27T01:30" } =
      AddResult.submit
        { start := "2024-10-27T01:30:00+01:00", end_ := "2024-10-27T01:30:00+01:00",
          name := "Jane", email := none, phone := none, notes := none } ∧
    isoDenotes fallbackEnv ("2024-10-27T01:30:00+01:00") = some 1729989000000 ∧
    isoDenotes fallbackEnv ("2024-10-27T01:30:00+01:00") ≠
      (isoDenotes fallbackEnv ("2024-10-27T01:30:00+01:00")).map
        (fun t => t + 3600000) := by
  refine ⟨by decide, by decide, by decide⟩
